import Mathlib

/-!
Shallow embedding of the Cycles denoising prefilter kernels
(`kernel_filter_divide_shadow`, `kernel_filter_get_feature`,
`kernel_filter_combine_halves`, `kernel_filter_non_local_means`)
from `kernel_filter_pre.h`.

Modelling conventions:
* `float` values are embedded as exact rationals `ℚ`; the constants
  `1e-7f` and `0.5f` become `1/10000000` and `1/2`.
* Flat float buffers are total functions `ℤ → ℚ`; a store through a
  pointer becomes `Function.update`.
* The 9-tile buffer array becomes `ℕ → ℤ → ℚ`, the 4-element tile
  boundary arrays become `Fin 4 → ℤ`.
* The C loops accumulate with an incrementally maintained flat index
  (`q_idx++`, `q_idx += w-(high.x-low.x)`); the embedding uses the
  closed forms these increments maintain
  (`q_idx = (qy-rect.y)*w + (qx-rect.x)`, `dIdx = dx + dy*w`) and sums
  over the same half-open ranges with `Finset.Ico`.
* `kernel_data.film.pass_stride` and `kernel_data.film.pass_denoising`
  are globals of the surrounding kernel; they are passed as explicit
  parameters `pass_stride`, `pass_denoising`.
-/

/-- The 4-component integer vector type `int4` used for `rect`:
`(x, y)` is the inclusive lower corner, `(z, w)` the exclusive upper
corner of the prefilter area. -/
structure int4 where
  x : ℤ
  y : ℤ
  z : ℤ
  w : ℤ

/-- Modelled from the spec: `align_up(offset, alignment)` (a utility
macro that is not part of the given sources) rounds `a` up to the next
multiple of `b`; destination buffers use a 4-aligned width
`align_up(rect.z - rect.x, 4)`. -/
def align_up (a b : ℤ) : ℤ := ((a + b - 1) / b) * b

/-- The numerical floor constant `1e-7f` used by the kernels, as an
exact rational. -/
def eps : ℚ := 1 / 10000000

/-- Tile column selection:
`int xtile = (x < tile_x[1])? 0: ((x < tile_x[2])? 1: 2);`. -/
def xtileOf (tile_x : Fin 4 → ℤ) (x : ℤ) : ℕ :=
  if x < tile_x 1 then 0 else if x < tile_x 2 then 1 else 2

/-- Tile row selection:
`int ytile = (y < tile_y[1])? 0: ((y < tile_y[2])? 1: 2);`. -/
def ytileOf (tile_y : Fin 4 → ℤ) (y : ℤ) : ℕ :=
  if y < tile_y 1 then 0 else if y < tile_y 2 then 1 else 2

/-- Row-major tile index: `int tile = ytile*3+xtile;`. -/
def tileOf (tile_x tile_y : Fin 4 → ℤ) (x y : ℤ) : ℕ :=
  ytileOf tile_y y * 3 + xtileOf tile_x x

/-- The per-pixel pass record pointer
`center_buffer = buffers[tile] + (offset[tile] + y*stride[tile] + x)*pass_stride + pass_denoising`,
read at sub-offset `k`: `center_buffer[k]`. -/
def centerBuffer (buffers : ℕ → ℤ → ℚ) (tile_x tile_y : Fin 4 → ℤ)
    (offset stride : ℕ → ℤ) (pass_stride pass_denoising x y k : ℤ) : ℚ :=
  buffers (tileOf tile_x tile_y x y)
    ((offset (tileOf tile_x tile_y x y) + y * stride (tileOf tile_x tile_y x y) + x)
        * pass_stride + pass_denoising + k)

/-- The destination index shared by all kernels:
`int buffer_w = align_up(rect.z - rect.x, 4); int idx = (y-rect.y)*buffer_w + (x - rect.x);`. -/
def bufferIdx (rect : int4) (x y : ℤ) : ℤ :=
  (y - rect.y) * align_up (rect.z - rect.x) 4 + (x - rect.x)

/-- The offset of the second half image inside `unfiltered`:
`int Bofs = (rect.w - rect.y)*buffer_w;`. -/
def shadowBofs (rect : int4) : ℤ :=
  (rect.w - rect.y) * align_up (rect.z - rect.x) 4

/-- The four output buffers of `kernel_filter_divide_shadow`. -/
structure ShadowBuffers where
  unfiltered : ℤ → ℚ
  sampleVariance : ℤ → ℚ
  sampleVarianceV : ℤ → ℚ
  bufferVariance : ℤ → ℚ

/-- Kernel `kernel_filter_divide_shadow`: shadow division for one pixel
`(x, y)`.  Returns the four output buffers after the writes; the value
`u2` reflects that `bufferVariance` reads `unfiltered[idx]` and
`unfiltered[idx+Bofs]` back after both stores. -/
def kernel_filter_divide_shadow (sample : ℤ) (buffers : ℕ → ℤ → ℚ) (x y : ℤ)
    (tile_x tile_y : Fin 4 → ℤ) (offset stride : ℕ → ℤ)
    (sb : ShadowBuffers) (rect : int4) (pass_stride pass_denoising : ℤ) :
    ShadowBuffers :=
  let cb : ℤ → ℚ := centerBuffer buffers tile_x tile_y offset stride
      pass_stride pass_denoising x y
  let idx := bufferIdx rect x y
  let Bofs := shadowBofs rect
  let u1 := Function.update sb.unfiltered idx (cb 15 / max (cb 14) eps)
  let u2 := Function.update u1 (idx + Bofs) (cb 18 / max (cb 17) eps)
  let varFac : ℚ := 1 / ((sample * (sample - 1) : ℤ) : ℚ)
  { unfiltered := u2
    sampleVariance :=
      Function.update sb.sampleVariance idx ((cb 16 + cb 19) * varFac)
    sampleVarianceV :=
      Function.update sb.sampleVarianceV idx
        ((1 / 2 : ℚ) * (cb 16 - cb 19) * (cb 16 - cb 19) * varFac)
    bufferVariance :=
      Function.update sb.bufferVariance idx
        ((1 / 2 : ℚ) * (u2 idx - u2 (idx + Bofs)) * (u2 idx - u2 (idx + Bofs))) }

/-- Kernel `kernel_filter_get_feature`: loads one feature's mean and variance
for pixel `(x, y)`, normalized by the sample count.  Returns the
updated `(mean, variance)` buffers. -/
def kernel_filter_get_feature (sample : ℤ) (buffers : ℕ → ℤ → ℚ)
    (m_offset v_offset : ℤ) (x y : ℤ) (tile_x tile_y : Fin 4 → ℤ)
    (offset stride : ℕ → ℤ) (mean variance : ℤ → ℚ) (rect : int4)
    (pass_stride pass_denoising : ℤ) : (ℤ → ℚ) × (ℤ → ℚ) :=
  let cb : ℤ → ℚ := centerBuffer buffers tile_x tile_y offset stride
      pass_stride pass_denoising x y
  let idx := bufferIdx rect x y
  (Function.update mean idx (cb m_offset / ((sample : ℤ) : ℚ)),
   Function.update variance idx (cb v_offset / ((sample * (sample - 1) : ℤ) : ℚ)))

/-- Kernel `kernel_filter_combine_halves`: combined mean and buffer variance of
the two half buffers `a`, `b` at pixel `(x, y)`.  The nullable output
pointers `mean` and `variance` are embedded as `Option`s; a `none`
output is skipped exactly like a NULL pointer in
`if(mean) ... if(variance) ...`. -/
def kernel_filter_combine_halves (x y : ℤ) (mean variance : Option (ℤ → ℚ))
    (a b : ℤ → ℚ) (rect : int4) : Option (ℤ → ℚ) × Option (ℤ → ℚ) :=
  let idx := bufferIdx rect x y
  (mean.map (fun m => Function.update m idx ((1 / 2 : ℚ) * (a idx + b idx))),
   variance.map (fun v =>
     Function.update v idx ((1 / 2 : ℚ) * (a idx - b idx) * (a idx - b idx))))

/-- Lower corner of the NLM search window:
`int2 low = make_int2(max(rect.x, x - r), max(rect.y, y - r));`. -/
def nlmLow (rect : int4) (x y r : ℤ) : ℤ × ℤ :=
  (max rect.x (x - r), max rect.y (y - r))

/-- Upper corner of the NLM search window:
`int2 high = make_int2(min(rect.z, x + r + 1), min(rect.w, y + r + 1));`. -/
def nlmHigh (rect : int4) (x y r : ℤ) : ℤ × ℤ :=
  (min rect.z (x + r + 1), min rect.w (y + r + 1))

/-- Lower corner of the joint patch window:
`int2 low_dPatch = make_int2(max(max(rect.x - qx, rect.x - x), -f), max(max(rect.y - qy, rect.y - y), -f));`. -/
def patchLow (rect : int4) (x y qx qy f : ℤ) : ℤ × ℤ :=
  (max (max (rect.x - qx) (rect.x - x)) (-f),
   max (max (rect.y - qy) (rect.y - y)) (-f))

/-- Upper corner of the joint patch window:
`int2 high_dPatch = make_int2(min(min(rect.z - qx, rect.z - x), f+1), min(min(rect.w - qy, rect.w - y), f+1));`. -/
def patchHigh (rect : int4) (x y qx qy f : ℤ) : ℤ × ℤ :=
  (min (min (rect.z - qx) (rect.z - x)) (f + 1),
   min (min (rect.w - qy) (rect.w - y)) (f + 1))

/-- One summand of the patch distance accumulation:
`diff = weightImage[p_idx+dIdx] - weightImage[q_idx+dIdx];`
`dI += (diff*diff - a*(variance[p_idx+dIdx] + min(variance[p_idx+dIdx], variance[q_idx+dIdx]))) * (1.0f / (1e-7f + k_2*(variance[p_idx+dIdx] + variance[q_idx+dIdx])));`. -/
def nlmTerm (weightImage variance : ℤ → ℚ) (a k_2 : ℚ) (p_idx q_idx dIdx : ℤ) : ℚ :=
  let diff := weightImage (p_idx + dIdx) - weightImage (q_idx + dIdx)
  (diff * diff
      - a * (variance (p_idx + dIdx)
          + min (variance (p_idx + dIdx)) (variance (q_idx + dIdx))))
    * (1 / (eps + k_2 * (variance (p_idx + dIdx) + variance (q_idx + dIdx))))

/-- The averaged patch distance `dI` for the candidate `(qx, qy)`,
including the final normalization
`dI *= 1.0f / ((high_dPatch.x - low_dPatch.x) * (high_dPatch.y - low_dPatch.y));`.
The flat patch offset `dIdx` is the closed form `dx + dy*w` of the
incrementally maintained C index. -/
def nlmDI (weightImage variance : ℤ → ℚ) (rect : int4) (w x y qx qy f : ℤ)
    (a k_2 : ℚ) : ℚ :=
  let lowP := patchLow rect x y qx qy f
  let highP := patchHigh rect x y qx qy f
  let p_idx := (y - rect.y) * w + (x - rect.x)
  let q_idx := (qy - rect.y) * w + (qx - rect.x)
  (∑ dy ∈ Finset.Ico lowP.2 highP.2, ∑ dx ∈ Finset.Ico lowP.1 highP.1,
      nlmTerm weightImage variance a k_2 p_idx q_idx (dx + dy * w))
    * (1 / (((highP.1 - lowP.1) * (highP.2 - lowP.2) : ℤ) : ℚ))

/-- The weight of candidate `(qx, qy)`:
`float wI = fast_expf(-max(0.0f, dI));`.
`fast_expf` is a utility not part of the given sources; modelled from
the spec ("Weight `wI = exp(-max(0, dI))`") as an explicit parameter
`E` standing for the exponential map. -/
def nlmWeight (E : ℚ → ℚ) (weightImage variance : ℤ → ℚ) (rect : int4)
    (w x y qx qy f : ℤ) (a k_2 : ℚ) : ℚ :=
  E (-(max 0 (nlmDI weightImage variance rect w x y qx qy f a k_2)))

/-- The accumulated `sum_weight` over the search window, with the flat
candidate index `q_idx` in its closed form `(qy-rect.y)*w + (qx-rect.x)`. -/
def nlmSumWeight (E : ℚ → ℚ) (weightImage variance : ℤ → ℚ) (rect : int4)
    (x y r f : ℤ) (a k_2 : ℚ) : ℚ :=
  let w := align_up (rect.z - rect.x) 4
  ∑ qy ∈ Finset.Ico (nlmLow rect x y r).2 (nlmHigh rect x y r).2,
    ∑ qx ∈ Finset.Ico (nlmLow rect x y r).1 (nlmHigh rect x y r).1,
      nlmWeight E weightImage variance rect w x y qx qy f a k_2

/-- The accumulated `sum_image`:
`sum_image += wI*noisyImage[q_idx];`. -/
def nlmSumImage (E : ℚ → ℚ) (noisyImage weightImage variance : ℤ → ℚ)
    (rect : int4) (x y r f : ℤ) (a k_2 : ℚ) : ℚ :=
  let w := align_up (rect.z - rect.x) 4
  ∑ qy ∈ Finset.Ico (nlmLow rect x y r).2 (nlmHigh rect x y r).2,
    ∑ qx ∈ Finset.Ico (nlmLow rect x y r).1 (nlmHigh rect x y r).1,
      nlmWeight E weightImage variance rect w x y qx qy f a k_2
        * noisyImage ((qy - rect.y) * w + (qx - rect.x))

/-- Kernel `kernel_filter_non_local_means`: the NLM filter for target pixel
`(x, y)`.  Writes `filteredImage[p_idx] = sum_image / sum_weight;` and
returns the updated output buffer. -/
def kernel_filter_non_local_means (E : ℚ → ℚ)
    (noisyImage weightImage variance filteredImage : ℤ → ℚ) (rect : int4)
    (x y r f : ℤ) (a k_2 : ℚ) : ℤ → ℚ :=
  let w := align_up (rect.z - rect.x) 4
  let p_idx := (y - rect.y) * w + (x - rect.x)
  Function.update filteredImage p_idx
    (nlmSumImage E noisyImage weightImage variance rect x y r f a k_2 /
     nlmSumWeight E weightImage variance rect x y r f a k_2)

/-- A concrete exponential-like map on `ℚ`, used to instantiate the
`E` parameter in witnesses: it agrees with `exp` on the properties the
spec relies on (`E 0 = 1`, `E` positive, `E t ≤ 1` for `t ≤ 0`). -/
def ratExp (t : ℚ) : ℚ := if 0 ≤ t then 1 + t else 1 / (1 - t)

/-! ### Helper lemmas -/

lemma align_up_four_ge (a : ℤ) (h : 0 < a) : 4 ≤ align_up a 4 := by
  unfold align_up
  omega

lemma shadowBofs_pos (rect : int4) (h : rect.x < rect.z) (h2 : rect.y < rect.w) :
    0 < shadowBofs rect := by
  have h4 : 4 ≤ align_up (rect.z - rect.x) 4 := align_up_four_ge _ (by omega)
  unfold shadowBofs
  exact mul_pos (by omega) (by omega)

lemma ratExp_zero : ratExp 0 = 1 := by norm_num [ratExp]

lemma ratExp_pos (t : ℚ) : 0 < ratExp t := by
  unfold ratExp
  by_cases h : 0 ≤ t
  · rw [if_pos h]
    linarith
  · rw [if_neg h]
    have h1 : 0 < 1 - t := by linarith
    positivity

lemma ratExp_le_one (t : ℚ) (ht : t ≤ 0) : ratExp t ≤ 1 := by
  unfold ratExp
  split
  · have : t = 0 := le_antisymm ht (by assumption)
    simp [this]
  · rw [div_le_one (by linarith)]
    linarith

/-! ### Shadow division (C5, C6, C9) -/

/-- C5: `kernel_filter_divide_shadow` writes
`unfiltered[idx] = center_buffer[15] / max(center_buffer[14], 1e-7)` and
`unfiltered[idx+Bofs] = center_buffer[18] / max(center_buffer[17], 1e-7)`
with `Bofs = (rect.w - rect.y) * align_up(rect.z - rect.x, 4)`; in
particular a zero denominator channel gives `center_buffer[15] / 1e-7`
rather than a division by zero. -/
theorem divide_shadow_unfiltered_spec (sample : ℤ) (buffers : ℕ → ℤ → ℚ)
    (x y : ℤ) (tile_x tile_y : Fin 4 → ℤ) (offset stride : ℕ → ℤ)
    (sb : ShadowBuffers) (rect : int4) (pass_stride pass_denoising : ℤ)
    (hx : rect.x ≤ x) (hx2 : x < rect.z) (hy : rect.y ≤ y) (hy2 : y < rect.w) :
    (kernel_filter_divide_shadow sample buffers x y tile_x tile_y offset stride
        sb rect pass_stride pass_denoising).unfiltered (bufferIdx rect x y)
      = centerBuffer buffers tile_x tile_y offset stride pass_stride pass_denoising x y 15
        / max (centerBuffer buffers tile_x tile_y offset stride pass_stride pass_denoising x y 14) eps
    ∧ (kernel_filter_divide_shadow sample buffers x y tile_x tile_y offset stride
        sb rect pass_stride pass_denoising).unfiltered (bufferIdx rect x y + shadowBofs rect)
      = centerBuffer buffers tile_x tile_y offset stride pass_stride pass_denoising x y 18
        / max (centerBuffer buffers tile_x tile_y offset stride pass_stride pass_denoising x y 17) eps
    ∧ (centerBuffer buffers tile_x tile_y offset stride pass_stride pass_denoising x y 14 = 0 →
        (kernel_filter_divide_shadow sample buffers x y tile_x tile_y offset stride
            sb rect pass_stride pass_denoising).unfiltered (bufferIdx rect x y)
          = centerBuffer buffers tile_x tile_y offset stride pass_stride pass_denoising x y 15 / eps) := by
  have hB : 0 < shadowBofs rect := shadowBofs_pos rect (by omega) (by omega)
  have hne : bufferIdx rect x y ≠ bufferIdx rect x y + shadowBofs rect := by omega
  simp only [kernel_filter_divide_shadow]
  refine ⟨?_, ?_, fun h14 => ?_⟩
  · rw [Function.update_noteq hne, Function.update_same]
  · rw [Function.update_same]
  · rw [Function.update_noteq hne, Function.update_same, h14,
      max_eq_right (by norm_num [eps] : (0 : ℚ) ≤ eps)]

/-- C6: for `sample ≥ 2`, `kernel_filter_divide_shadow` writes
`sampleVariance[idx] = (center_buffer[16] + center_buffer[19]) * varFac`,
`sampleVarianceV[idx] = 0.5 * (center_buffer[16] - center_buffer[19])^2 * varFac`
with `varFac = 1/(sample*(sample-1))`, and
`bufferVariance[idx] = 0.5 * (unfiltered[idx] - unfiltered[idx+Bofs])^2`,
half the squared difference of the two unfiltered ratios. -/
theorem divide_shadow_variance_spec (sample : ℤ) (buffers : ℕ → ℤ → ℚ)
    (x y : ℤ) (tile_x tile_y : Fin 4 → ℤ) (offset stride : ℕ → ℤ)
    (sb : ShadowBuffers) (rect : int4) (pass_stride pass_denoising : ℤ)
    (hs : 2 ≤ sample) :
    (kernel_filter_divide_shadow sample buffers x y tile_x tile_y offset stride
        sb rect pass_stride pass_denoising).sampleVariance (bufferIdx rect x y)
      = (centerBuffer buffers tile_x tile_y offset stride pass_stride pass_denoising x y 16
          + centerBuffer buffers tile_x tile_y offset stride pass_stride pass_denoising x y 19)
        * (1 / ((sample * (sample - 1) : ℤ) : ℚ))
    ∧ (kernel_filter_divide_shadow sample buffers x y tile_x tile_y offset stride
        sb rect pass_stride pass_denoising).sampleVarianceV (bufferIdx rect x y)
      = (1 / 2 : ℚ)
        * (centerBuffer buffers tile_x tile_y offset stride pass_stride pass_denoising x y 16
            - centerBuffer buffers tile_x tile_y offset stride pass_stride pass_denoising x y 19) ^ 2
        * (1 / ((sample * (sample - 1) : ℤ) : ℚ))
    ∧ (kernel_filter_divide_shadow sample buffers x y tile_x tile_y offset stride
        sb rect pass_stride pass_denoising).bufferVariance (bufferIdx rect x y)
      = (1 / 2 : ℚ)
        * ((kernel_filter_divide_shadow sample buffers x y tile_x tile_y offset stride
              sb rect pass_stride pass_denoising).unfiltered (bufferIdx rect x y)
            - (kernel_filter_divide_shadow sample buffers x y tile_x tile_y offset stride
              sb rect pass_stride pass_denoising).unfiltered (bufferIdx rect x y + shadowBofs rect)) ^ 2 := by
  simp only [kernel_filter_divide_shadow]
  refine ⟨?_, ?_, ?_⟩
  · rw [Function.update_same]
  · rw [Function.update_same]
    ring
  · rw [Function.update_same]
    ring

/-- C9: one call of `kernel_filter_divide_shadow` leaves every output
location other than `unfiltered[idx]`, `unfiltered[idx+Bofs]`,
`sampleVariance[idx]`, `sampleVarianceV[idx]`, `bufferVariance[idx]`
unchanged (the embedding is functional, so the input render buffers and
tile descriptors are unchanged by construction). -/
theorem divide_shadow_frame (sample : ℤ) (buffers : ℕ → ℤ → ℚ)
    (x y : ℤ) (tile_x tile_y : Fin 4 → ℤ) (offset stride : ℕ → ℤ)
    (sb : ShadowBuffers) (rect : int4) (pass_stride pass_denoising : ℤ)
    (j : ℤ) (hj : j ≠ bufferIdx rect x y) :
    (j ≠ bufferIdx rect x y + shadowBofs rect →
      (kernel_filter_divide_shadow sample buffers x y tile_x tile_y offset stride
          sb rect pass_stride pass_denoising).unfiltered j = sb.unfiltered j)
    ∧ (kernel_filter_divide_shadow sample buffers x y tile_x tile_y offset stride
        sb rect pass_stride pass_denoising).sampleVariance j = sb.sampleVariance j
    ∧ (kernel_filter_divide_shadow sample buffers x y tile_x tile_y offset stride
        sb rect pass_stride pass_denoising).sampleVarianceV j = sb.sampleVarianceV j
    ∧ (kernel_filter_divide_shadow sample buffers x y tile_x tile_y offset stride
        sb rect pass_stride pass_denoising).bufferVariance j = sb.bufferVariance j := by
  simp only [kernel_filter_divide_shadow]
  exact ⟨fun hj2 => by rw [Function.update_noteq hj2, Function.update_noteq hj],
    by rw [Function.update_noteq hj], by rw [Function.update_noteq hj],
    by rw [Function.update_noteq hj]⟩

/-! ### Feature extraction (C8) -/

/-- C8: `kernel_filter_get_feature` writes
`mean[idx] = center_buffer[m_offset] / sample` and
`variance[idx] = center_buffer[v_offset] / (sample*(sample-1))`; with
`sample = 2` the variance output is the raw channel value divided by 2. -/
theorem get_feature_spec (sample : ℤ) (buffers : ℕ → ℤ → ℚ)
    (m_offset v_offset : ℤ) (x y : ℤ) (tile_x tile_y : Fin 4 → ℤ)
    (offset stride : ℕ → ℤ) (mean variance : ℤ → ℚ) (rect : int4)
    (pass_stride pass_denoising : ℤ) (hs : 2 ≤ sample) :
    (kernel_filter_get_feature sample buffers m_offset v_offset x y tile_x tile_y
        offset stride mean variance rect pass_stride pass_denoising).1 (bufferIdx rect x y)
      = centerBuffer buffers tile_x tile_y offset stride pass_stride pass_denoising x y m_offset
        / ((sample : ℤ) : ℚ)
    ∧ (kernel_filter_get_feature sample buffers m_offset v_offset x y tile_x tile_y
        offset stride mean variance rect pass_stride pass_denoising).2 (bufferIdx rect x y)
      = centerBuffer buffers tile_x tile_y offset stride pass_stride pass_denoising x y v_offset
        / ((sample * (sample - 1) : ℤ) : ℚ)
    ∧ (sample = 2 →
        (kernel_filter_get_feature sample buffers m_offset v_offset x y tile_x tile_y
            offset stride mean variance rect pass_stride pass_denoising).2 (bufferIdx rect x y)
          = centerBuffer buffers tile_x tile_y offset stride pass_stride pass_denoising x y v_offset / 2) := by
  simp only [kernel_filter_get_feature]
  refine ⟨Function.update_same _ _ _, Function.update_same _ _ _, fun h2 => ?_⟩
  subst h2
  rw [Function.update_same]
  norm_num

/-! ### Half combination (C7) -/

/-- C7: `kernel_filter_combine_halves` is invariant under swapping the
two half buffers `a` and `b`: the mean output `0.5*(a+b)` is symmetric
and the variance output `0.5*(a-b)^2` is invariant. -/
theorem combine_halves_swap (x y : ℤ) (mean variance : Option (ℤ → ℚ))
    (a b : ℤ → ℚ) (rect : int4) :
    kernel_filter_combine_halves x y mean variance a b rect
      = kernel_filter_combine_halves x y mean variance b a rect := by
  unfold kernel_filter_combine_halves
  simp only [Prod.mk.injEq]
  constructor
  · exact congrArg
      (fun v => Option.map (fun m => Function.update m (bufferIdx rect x y) v) mean)
      (by ring)
  · exact congrArg
      (fun v => Option.map (fun m => Function.update m (bufferIdx rect x y) v) variance)
      (by ring)

/-! ### NLM helper lemmas -/

lemma eps_pos : (0 : ℚ) < eps := by norm_num [eps]

lemma window_mem_x (rect : int4) (x y r : ℤ) (hx : rect.x ≤ x) (hx2 : x < rect.z)
    (hr : 0 ≤ r) : x ∈ Finset.Ico (nlmLow rect x y r).1 (nlmHigh rect x y r).1 := by
  unfold nlmLow nlmHigh
  rw [Finset.mem_Ico]
  exact ⟨max_le hx (by omega), lt_min hx2 (by omega)⟩

lemma window_mem_y (rect : int4) (x y r : ℤ) (hy : rect.y ≤ y) (hy2 : y < rect.w)
    (hr : 0 ≤ r) : y ∈ Finset.Ico (nlmLow rect x y r).2 (nlmHigh rect x y r).2 := by
  unfold nlmLow nlmHigh
  rw [Finset.mem_Ico]
  exact ⟨max_le hy (by omega), lt_min hy2 (by omega)⟩

lemma nlmDI_const_zero (c : ℚ) (rect : int4) (w x y qx qy f : ℤ)
    (a k_2 : ℚ) : nlmDI (fun _ => c) (fun _ => 0) rect w x y qx qy f a k_2 = 0 := by
  unfold nlmDI nlmTerm
  simp

lemma nlmWeight_const_one (E : ℚ → ℚ) (c : ℚ) (rect : int4) (w x y qx qy f : ℤ)
    (a k_2 : ℚ) (hE : E 0 = 1) :
    nlmWeight E (fun _ => c) (fun _ => 0) rect w x y qx qy f a k_2 = 1 := by
  unfold nlmWeight
  rw [nlmDI_const_zero]
  simp [hE]

lemma nlm_const_eq (E : ℚ → ℚ) (c : ℚ) (filt : ℤ → ℚ) (rect : int4) (x y r f : ℤ)
    (a k_2 : ℚ) (hE : E 0 = 1) (hx : rect.x ≤ x) (hx2 : x < rect.z)
    (hy : rect.y ≤ y) (hy2 : y < rect.w) (hr : 0 ≤ r) :
    kernel_filter_non_local_means E (fun _ => c) (fun _ => c) (fun _ => 0) filt
        rect x y r f a k_2
        ((y - rect.y) * align_up (rect.z - rect.x) 4 + (x - rect.x)) = c := by
  simp only [kernel_filter_non_local_means]
  rw [Function.update_same]
  have hw : ∀ qx qy : ℤ,
      nlmWeight E (fun _ => c) (fun _ => 0) rect (align_up (rect.z - rect.x) 4)
        x y qx qy f a k_2 = 1 := fun qx qy => nlmWeight_const_one E c _ _ _ _ _ _ _ _ _ hE
  simp only [nlmSumImage, nlmSumWeight]
  simp_rw [hw, one_mul]
  rw [Finset.sum_const, Finset.sum_const, Finset.sum_const, Finset.sum_const]
  have hcx : 0 < ((Finset.Ico (nlmLow rect x y r).1 (nlmHigh rect x y r).1).card : ℚ) := by
    exact_mod_cast Finset.card_pos.mpr ⟨x, window_mem_x rect x y r hx hx2 hr⟩
  have hcy : 0 < ((Finset.Ico (nlmLow rect x y r).2 (nlmHigh rect x y r).2).card : ℚ) := by
    exact_mod_cast Finset.card_pos.mpr ⟨y, window_mem_y rect x y r hy hy2 hr⟩
  rw [Int.card_Ico] at hcx hcy
  simp only [nsmul_eq_mul, Int.card_Ico, mul_one]
  rw [div_eq_iff (ne_of_gt (mul_pos hcy hcx))]
  ring


lemma nlmDI_self_nonpos (weightImage variance : ℤ → ℚ) (rect : int4)
    (w x y f : ℤ) (a k_2 : ℚ) (hx : rect.x ≤ x) (hx2 : x < rect.z)
    (hy : rect.y ≤ y) (hy2 : y < rect.w) (ha : 0 ≤ a) (hk : 0 ≤ k_2)
    (hv : ∀ i, 0 ≤ variance i) :
    nlmDI weightImage variance rect w x y x y f a k_2 ≤ 0 := by
  simp only [nlmDI]
  rcases lt_or_le f 0 with hf | hf
  · rw [Finset.Ico_eq_empty (by unfold patchLow patchHigh; simp only; omega),
      Finset.sum_empty, zero_mul]
  · have hterm : ∀ d : ℤ,
        nlmTerm weightImage variance a k_2 ((y - rect.y) * w + (x - rect.x))
          ((y - rect.y) * w + (x - rect.x)) d ≤ 0 := by
      intro d
      simp only [nlmTerm, sub_self, min_self]
      have hvpos := hv ((y - rect.y) * w + (x - rect.x) + d)
      have hden : 0 < eps + k_2 * (variance ((y - rect.y) * w + (x - rect.x) + d)
          + variance ((y - rect.y) * w + (x - rect.x) + d)) :=
        add_pos_of_pos_of_nonneg eps_pos (mul_nonneg hk (by linarith))
      apply mul_nonpos_iff.mpr
      exact Or.inr ⟨by nlinarith, le_of_lt (by positivity)⟩
    have hsum : (∑ dy ∈ Finset.Ico (patchLow rect x y x y f).2 (patchHigh rect x y x y f).2,
        ∑ dx ∈ Finset.Ico (patchLow rect x y x y f).1 (patchHigh rect x y x y f).1,
          nlmTerm weightImage variance a k_2 ((y - rect.y) * w + (x - rect.x))
            ((y - rect.y) * w + (x - rect.x)) (dx + dy * w)) ≤ 0 :=
      Finset.sum_nonpos fun dy _ => Finset.sum_nonpos fun dx _ => hterm _
    have harea : (0 : ℚ) ≤ 1 / ((((patchHigh rect x y x y f).1 - (patchLow rect x y x y f).1)
        * ((patchHigh rect x y x y f).2 - (patchLow rect x y x y f).2) : ℤ) : ℚ) := by
      apply one_div_nonneg.mpr
      have h1 : 0 < (patchHigh rect x y x y f).1 - (patchLow rect x y x y f).1 := by
        unfold patchLow patchHigh; simp only; omega
      have h2 : 0 < (patchHigh rect x y x y f).2 - (patchLow rect x y x y f).2 := by
        unfold patchLow patchHigh; simp only; omega
      exact_mod_cast le_of_lt (mul_pos h1 h2)
    exact mul_nonpos_iff.mpr (Or.inr ⟨hsum, harea⟩)

/-- C2 (amended): in `kernel_filter_non_local_means`, for a target pixel
`(x, y)` inside `rect`, the weight computed for the candidate
`q = p = (x, y)` equals exactly 1, provided the bias factor `a`, the
strength `k_2` and the variance buffer are nonnegative (for negative
`a` or negative variance entries the clamped exponent need not vanish,
see the counterexample). -/
theorem nlm_self_weight_one (E : ℚ → ℚ) (weightImage variance : ℤ → ℚ)
    (rect : int4) (w x y f : ℤ) (a k_2 : ℚ) (hE : E 0 = 1)
    (hx : rect.x ≤ x) (hx2 : x < rect.z) (hy : rect.y ≤ y) (hy2 : y < rect.w)
    (ha : 0 ≤ a) (hk : 0 ≤ k_2) (hv : ∀ i, 0 ≤ variance i) :
    nlmWeight E weightImage variance rect w x y x y f a k_2 = 1 := by
  unfold nlmWeight
  rw [max_eq_left (nlmDI_self_nonpos weightImage variance rect w x y f a k_2
      hx hx2 hy hy2 ha hk hv), neg_zero, hE]

/-- Witness for C2 (amended): concrete instance of the self-weight
theorem. -/
theorem nlm_self_weight_one_witness :
    nlmWeight ratExp (fun _ => 0) (fun _ => 0) ⟨0, 0, 1, 1⟩ 4 0 0 0 0 0 1 1 = 1 :=
  nlm_self_weight_one ratExp (fun _ => 0) (fun _ => 0) ⟨0, 0, 1, 1⟩ 4 0 0 0 1 1
    ratExp_zero (by decide) (by decide) (by decide) (by decide)
    (by norm_num) (by norm_num) (fun _ => le_refl 0)

/-- Counterexample to C2 as stated: with `a = -1` and a constant
variance of 1, the weight computed for `q = p` at the in-rect pixel
`(0, 0)` is `ratExp (-(2*10^7)) = 1/(1 + 2*10^7) ≠ 1`, so the
self-weight is not 1 for every parameter value. -/
theorem nlm_self_weight_counterexample :
    nlmWeight ratExp (fun _ => 0) (fun _ => 1) ⟨0, 0, 1, 1⟩ 4 0 0 0 0 0 (-1) 0 ≠ 1 := by
  simp only [nlmWeight, nlmDI, nlmTerm, patchLow, patchHigh]
  norm_num
  rw [max_eq_right (by norm_num [eps] : (0 : ℚ) ≤ 2 * eps⁻¹)]
  norm_num [ratExp, eps]

lemma nlmSumWeight_pos (E : ℚ → ℚ) (weightImage variance : ℤ → ℚ) (rect : int4)
    (x y r f : ℤ) (a k_2 : ℚ) (hE : ∀ t, 0 < E t)
    (hx : rect.x ≤ x) (hx2 : x < rect.z) (hy : rect.y ≤ y) (hy2 : y < rect.w)
    (hr : 0 ≤ r) : 0 < nlmSumWeight E weightImage variance rect x y r f a k_2 := by
  simp only [nlmSumWeight]
  apply Finset.sum_pos
  · intro qy _
    apply Finset.sum_pos
    · intro qx _
      exact hE _
    · exact ⟨x, window_mem_x rect x y r hx hx2 hr⟩
  · exact ⟨y, window_mem_y rect x y r hy hy2 hr⟩

/-- C3: for a target pixel inside `rect` and `r ≥ 0`, the clipped
search window contains `p = (x, y)` itself, `sum_weight` is strictly
positive (the exponential is positive), and the value stored into
`filteredImage[p_idx]` is the quotient `sum_image / sum_weight`, whose
denominator is nonzero. -/
theorem nlm_sum_weight_pos (E : ℚ → ℚ)
    (noisyImage weightImage variance filteredImage : ℤ → ℚ) (rect : int4)
    (x y r f : ℤ) (a k_2 : ℚ) (hE : ∀ t, 0 < E t)
    (hx : rect.x ≤ x) (hx2 : x < rect.z) (hy : rect.y ≤ y) (hy2 : y < rect.w)
    (hr : 0 ≤ r) :
    (nlmLow rect x y r).1 ≤ x ∧ x < (nlmHigh rect x y r).1
    ∧ (nlmLow rect x y r).2 ≤ y ∧ y < (nlmHigh rect x y r).2
    ∧ 0 < nlmSumWeight E weightImage variance rect x y r f a k_2
    ∧ kernel_filter_non_local_means E noisyImage weightImage variance filteredImage
        rect x y r f a k_2 ((y - rect.y) * align_up (rect.z - rect.x) 4 + (x - rect.x))
      = nlmSumImage E noisyImage weightImage variance rect x y r f a k_2
        / nlmSumWeight E weightImage variance rect x y r f a k_2 := by
  have hmx := window_mem_x rect x y r hx hx2 hr
  have hmy := window_mem_y rect x y r hy hy2 hr
  rw [Finset.mem_Ico] at hmx hmy
  refine ⟨hmx.1, hmx.2, hmy.1, hmy.2,
    nlmSumWeight_pos E weightImage variance rect x y r f a k_2 hE hx hx2 hy hy2 hr, ?_⟩
  simp only [kernel_filter_non_local_means]
  rw [Function.update_same]

/-- Witness for C3: concrete positive `sum_weight`. -/
theorem nlm_sum_weight_pos_witness :
    0 < nlmSumWeight ratExp (fun _ => 0) (fun _ => 0) ⟨0, 0, 1, 1⟩ 0 0 0 0 1 1 :=
  (nlm_sum_weight_pos ratExp (fun _ => 0) (fun _ => 0) (fun _ => 0) (fun _ => 0)
    ⟨0, 0, 1, 1⟩ 0 0 0 0 1 1 ratExp_pos (by decide) (by decide) (by decide)
    (by decide) (by decide)).2.2.2.2.1

/-- C1: with `rect = (0,0,4,4)`, `noisyImage = weightImage = 5`
everywhere, variance 0 everywhere and `r = f = 1`, `a = 1`, `k_2 = 1`,
the value written to `filteredImage` at every interior pixel of the
rect is exactly 5 (for any exponential map with `E 0 = 1`, as every
patch distance is exactly 0 and every weight exactly 1). -/
theorem nlm_uniform_scenario (E : ℚ → ℚ) (filteredImage : ℤ → ℚ) (x y : ℤ)
    (hE : E 0 = 1) (hx : 0 < x) (hx2 : x < 3) (hy : 0 < y) (hy2 : y < 3) :
    kernel_filter_non_local_means E (fun _ => 5) (fun _ => 5) (fun _ => 0)
        filteredImage ⟨0, 0, 4, 4⟩ x y 1 1 1 1 (y * 4 + x) = 5 := by
  have hidx : y * 4 + x
      = (y - (⟨0, 0, 4, 4⟩ : int4).y)
          * align_up ((⟨0, 0, 4, 4⟩ : int4).z - (⟨0, 0, 4, 4⟩ : int4).x) 4
        + (x - (⟨0, 0, 4, 4⟩ : int4).x) := by
    show y * 4 + x = (y - 0) * align_up (4 - 0) 4 + (x - 0)
    rw [show align_up ((4 : ℤ) - 0) 4 = 4 from by decide]
    ring
  rw [hidx]
  exact nlm_const_eq E 5 filteredImage ⟨0, 0, 4, 4⟩ x y 1 1 1 1 hE
    (show (0 : ℤ) ≤ x from by omega) (show x < 4 from by omega)
    (show (0 : ℤ) ≤ y from by omega) (show y < 4 from by omega) (by norm_num)

/-- Witness for C1 at the interior pixel `(1, 1)`. -/
theorem nlm_uniform_scenario_witness :
    kernel_filter_non_local_means ratExp (fun _ => 5) (fun _ => 5) (fun _ => 0)
      (fun _ => 0) ⟨0, 0, 4, 4⟩ 1 1 1 1 1 1 (1 * 4 + 1) = 5 :=
  nlm_uniform_scenario ratExp (fun _ => 0) 1 1 ratExp_zero
    (by decide) (by decide) (by decide) (by decide)

lemma sum_Ico_clip (a b c d : ℤ) (g : ℤ → ℚ) :
    (∑ i ∈ Finset.Ico (max a c) (min b d), g i)
      = ∑ i ∈ Finset.Ico c d, if a ≤ i ∧ i < b then g i else 0 := by
  rw [show Finset.Ico (max a c) (min b d) = Finset.Ico c d ∩ Finset.Ico a b from by
    rw [Finset.Ico_inter_Ico, max_comm c a, min_comm d b]]
  rw [← Finset.sum_ite_mem]
  apply Finset.sum_congr rfl
  intro i _
  simp [Finset.mem_Ico]

/-- C4: every candidate `q` iterated by `kernel_filter_non_local_means`
lies inside `rect`, and `sum_weight` equals the sum over the full
`(2r+1)^2` window in which every `q` outside `rect` contributes 0 —
i.e. only the clipped window contributes (at a corner pixel with
`r = 3` this window is strictly smaller than the full square, see the
witness instance). -/
theorem nlm_window_clipped (E : ℚ → ℚ) (weightImage variance : ℤ → ℚ)
    (rect : int4) (x y r f : ℤ) (a k_2 : ℚ) :
    (∀ qx ∈ Finset.Ico (nlmLow rect x y r).1 (nlmHigh rect x y r).1,
        rect.x ≤ qx ∧ qx < rect.z)
    ∧ (∀ qy ∈ Finset.Ico (nlmLow rect x y r).2 (nlmHigh rect x y r).2,
        rect.y ≤ qy ∧ qy < rect.w)
    ∧ nlmSumWeight E weightImage variance rect x y r f a k_2
      = ∑ qy ∈ Finset.Ico (y - r) (y + r + 1), ∑ qx ∈ Finset.Ico (x - r) (x + r + 1),
          if (rect.x ≤ qx ∧ qx < rect.z) ∧ rect.y ≤ qy ∧ qy < rect.w
          then nlmWeight E weightImage variance rect (align_up (rect.z - rect.x) 4)
            x y qx qy f a k_2
          else 0 := by
  refine ⟨?_, ?_, ?_⟩
  · intro qx hqx
    rw [Finset.mem_Ico] at hqx
    unfold nlmLow nlmHigh at hqx
    simp only at hqx
    omega
  · intro qy hqy
    rw [Finset.mem_Ico] at hqy
    unfold nlmLow nlmHigh at hqy
    simp only at hqy
    omega
  · simp only [nlmSumWeight, nlmLow, nlmHigh]
    rw [sum_Ico_clip rect.y rect.w (y - r) (y + r + 1)]
    apply Finset.sum_congr rfl
    intro qy _
    by_cases hq : rect.y ≤ qy ∧ qy < rect.w
    · rw [if_pos hq, sum_Ico_clip rect.x rect.z (x - r) (x + r + 1)]
      apply Finset.sum_congr rfl
      intro qx _
      by_cases hp : rect.x ≤ qx ∧ qx < rect.z
      · rw [if_pos hp, if_pos ⟨hp, hq⟩]
      · rw [if_neg hp, if_neg (by tauto)]
    · rw [if_neg hq]
      symm
      apply Finset.sum_eq_zero
      intro qx _
      rw [if_neg (by tauto)]

/-- Witness for C4 at the corner pixel `(0, 0)` of `rect = (0,0,8,8)`
with `r = 3`: the iterated window is the clipped `[0,4) × [0,4)`. -/
theorem nlm_window_clipped_witness :
    (∀ qx ∈ Finset.Ico (nlmLow ⟨0, 0, 8, 8⟩ 0 0 3).1 (nlmHigh ⟨0, 0, 8, 8⟩ 0 0 3).1,
        (⟨0, 0, 8, 8⟩ : int4).x ≤ qx ∧ qx < (⟨0, 0, 8, 8⟩ : int4).z)
    ∧ (∀ qy ∈ Finset.Ico (nlmLow ⟨0, 0, 8, 8⟩ 0 0 3).2 (nlmHigh ⟨0, 0, 8, 8⟩ 0 0 3).2,
        (⟨0, 0, 8, 8⟩ : int4).y ≤ qy ∧ qy < (⟨0, 0, 8, 8⟩ : int4).w)
    ∧ nlmSumWeight ratExp (fun _ => 0) (fun _ => 0) ⟨0, 0, 8, 8⟩ 0 0 3 1 1 1
      = ∑ qy ∈ Finset.Ico (0 - 3 : ℤ) (0 + 3 + 1),
          ∑ qx ∈ Finset.Ico (0 - 3 : ℤ) (0 + 3 + 1),
          if ((⟨0, 0, 8, 8⟩ : int4).x ≤ qx ∧ qx < (⟨0, 0, 8, 8⟩ : int4).z)
              ∧ (⟨0, 0, 8, 8⟩ : int4).y ≤ qy ∧ qy < (⟨0, 0, 8, 8⟩ : int4).w
          then nlmWeight ratExp (fun _ => 0) (fun _ => 0) ⟨0, 0, 8, 8⟩
            (align_up ((⟨0, 0, 8, 8⟩ : int4).z - (⟨0, 0, 8, 8⟩ : int4).x) 4) 0 0 qx qy 1 1 1
          else 0 :=
  nlm_window_clipped ratExp (fun _ => 0) (fun _ => 0) ⟨0, 0, 8, 8⟩ 0 0 3 1 1 1

lemma nlmWeight_pos (E : ℚ → ℚ) (weightImage variance : ℤ → ℚ) (rect : int4)
    (w x y qx qy f : ℤ) (a k_2 : ℚ) (hE : ∀ t, 0 < E t) :
    0 < nlmWeight E weightImage variance rect w x y qx qy f a k_2 := hE _

lemma nlmWeight_le_one (E : ℚ → ℚ) (weightImage variance : ℤ → ℚ) (rect : int4)
    (w x y qx qy f : ℤ) (a k_2 : ℚ) (hE1 : ∀ t, t ≤ 0 → E t ≤ 1) :
    nlmWeight E weightImage variance rect w x y qx qy f a k_2 ≤ 1 :=
  hE1 _ (neg_nonpos.mpr (le_max_left 0 _))

/-- C10: every NLM weight lies in `(0, 1]` (the clamp `-max(0, dI)`
makes the exponent nonpositive), and for a pixel inside `rect` with
`r ≥ 0` the filtered output is a weight-normalized average, hence lies
between any lower and upper bound of `noisyImage` over the clipped
search window. -/
theorem nlm_convex_combination (E : ℚ → ℚ)
    (noisyImage weightImage variance filteredImage : ℤ → ℚ) (rect : int4)
    (x y r f : ℤ) (a k_2 : ℚ)
    (hE : ∀ t, 0 < E t) (hE1 : ∀ t, t ≤ 0 → E t ≤ 1)
    (hx : rect.x ≤ x) (hx2 : x < rect.z) (hy : rect.y ≤ y) (hy2 : y < rect.w)
    (hr : 0 ≤ r) (ha : 0 ≤ a) (hk : 0 ≤ k_2) :
    (∀ qx qy : ℤ,
        0 < nlmWeight E weightImage variance rect (align_up (rect.z - rect.x) 4)
            x y qx qy f a k_2
        ∧ nlmWeight E weightImage variance rect (align_up (rect.z - rect.x) 4)
            x y qx qy f a k_2 ≤ 1)
    ∧ ∀ lo hi : ℚ,
        (∀ qx qy : ℤ, qx ∈ Finset.Ico (nlmLow rect x y r).1 (nlmHigh rect x y r).1 →
            qy ∈ Finset.Ico (nlmLow rect x y r).2 (nlmHigh rect x y r).2 →
            lo ≤ noisyImage ((qy - rect.y) * align_up (rect.z - rect.x) 4 + (qx - rect.x))
            ∧ noisyImage ((qy - rect.y) * align_up (rect.z - rect.x) 4 + (qx - rect.x)) ≤ hi) →
        lo ≤ kernel_filter_non_local_means E noisyImage weightImage variance filteredImage
            rect x y r f a k_2 ((y - rect.y) * align_up (rect.z - rect.x) 4 + (x - rect.x))
        ∧ kernel_filter_non_local_means E noisyImage weightImage variance filteredImage
            rect x y r f a k_2 ((y - rect.y) * align_up (rect.z - rect.x) 4 + (x - rect.x)) ≤ hi := by
  refine ⟨fun qx qy => ⟨nlmWeight_pos E weightImage variance rect _ x y qx qy f a k_2 hE,
    nlmWeight_le_one E weightImage variance rect _ x y qx qy f a k_2 hE1⟩,
    fun lo hi hbound => ?_⟩
  have hSW : 0 < nlmSumWeight E weightImage variance rect x y r f a k_2 :=
    nlmSumWeight_pos E weightImage variance rect x y r f a k_2 hE hx hx2 hy hy2 hr
  simp only [kernel_filter_non_local_means]
  rw [Function.update_same]
  constructor
  · rw [le_div_iff₀ hSW]
    simp only [nlmSumWeight, nlmSumImage]
    rw [Finset.mul_sum]
    apply Finset.sum_le_sum
    intro qy hqy
    rw [Finset.mul_sum]
    apply Finset.sum_le_sum
    intro qx hqx
    rw [mul_comm lo]
    exact mul_le_mul_of_nonneg_left (hbound qx qy hqx hqy).1
      (le_of_lt (nlmWeight_pos E weightImage variance rect _ x y qx qy f a k_2 hE))
  · rw [div_le_iff₀ hSW]
    simp only [nlmSumWeight, nlmSumImage]
    rw [Finset.mul_sum]
    apply Finset.sum_le_sum
    intro qy hqy
    rw [Finset.mul_sum]
    apply Finset.sum_le_sum
    intro qx hqx
    rw [mul_comm hi]
    exact mul_le_mul_of_nonneg_left (hbound qx qy hqx hqy).2
      (le_of_lt (nlmWeight_pos E weightImage variance rect _ x y qx qy f a k_2 hE))

/-- Witness for C10: on a constant image 5 the output is bounded by 5
on both sides. -/
theorem nlm_convex_combination_witness :
    5 ≤ kernel_filter_non_local_means ratExp (fun _ => 5) (fun _ => 0) (fun _ => 0)
        (fun _ => 0) ⟨0, 0, 1, 1⟩ 0 0 0 0 1 1 0
    ∧ kernel_filter_non_local_means ratExp (fun _ => 5) (fun _ => 0) (fun _ => 0)
        (fun _ => 0) ⟨0, 0, 1, 1⟩ 0 0 0 0 1 1 0 ≤ 5 :=
  (nlm_convex_combination ratExp (fun _ => 5) (fun _ => 0) (fun _ => 0) (fun _ => 0)
      ⟨0, 0, 1, 1⟩ 0 0 0 0 1 1 ratExp_pos ratExp_le_one (by decide) (by decide)
      (by decide) (by decide) (by decide) (by norm_num) (by norm_num)).2 5 5
    (fun qx qy _ _ => ⟨le_refl 5, le_refl 5⟩)

/-- Witness for C5 on concrete buffers. -/
theorem divide_shadow_unfiltered_spec_witness :
    (kernel_filter_divide_shadow 2 (fun _ k => (k : ℚ)) 0 0 (fun _ => 1) (fun _ => 1)
        (fun _ => 0) (fun _ => 1)
        ⟨fun _ => 0, fun _ => 0, fun _ => 0, fun _ => 0⟩ ⟨0, 0, 1, 1⟩ 1 0).unfiltered
        (bufferIdx ⟨0, 0, 1, 1⟩ 0 0)
      = centerBuffer (fun _ k => (k : ℚ)) (fun _ => 1) (fun _ => 1) (fun _ => 0)
          (fun _ => 1) 1 0 0 0 15
        / max (centerBuffer (fun _ k => (k : ℚ)) (fun _ => 1) (fun _ => 1) (fun _ => 0)
          (fun _ => 1) 1 0 0 0 14) eps :=
  (divide_shadow_unfiltered_spec 2 (fun _ k => (k : ℚ)) 0 0 (fun _ => 1) (fun _ => 1)
    (fun _ => 0) (fun _ => 1) ⟨fun _ => 0, fun _ => 0, fun _ => 0, fun _ => 0⟩
    ⟨0, 0, 1, 1⟩ 1 0 (by decide) (by decide) (by decide) (by decide)).1

/-- Witness for C6 on concrete buffers. -/
theorem divide_shadow_variance_spec_witness :
    (kernel_filter_divide_shadow 2 (fun _ k => (k : ℚ)) 0 0 (fun _ => 1) (fun _ => 1)
        (fun _ => 0) (fun _ => 1)
        ⟨fun _ => 0, fun _ => 0, fun _ => 0, fun _ => 0⟩ ⟨0, 0, 1, 1⟩ 1 0).sampleVariance
        (bufferIdx ⟨0, 0, 1, 1⟩ 0 0)
      = (centerBuffer (fun _ k => (k : ℚ)) (fun _ => 1) (fun _ => 1) (fun _ => 0)
            (fun _ => 1) 1 0 0 0 16
          + centerBuffer (fun _ k => (k : ℚ)) (fun _ => 1) (fun _ => 1) (fun _ => 0)
            (fun _ => 1) 1 0 0 0 19)
        * (1 / ((2 * (2 - 1) : ℤ) : ℚ)) :=
  (divide_shadow_variance_spec 2 (fun _ k => (k : ℚ)) 0 0 (fun _ => 1) (fun _ => 1)
    (fun _ => 0) (fun _ => 1) ⟨fun _ => 0, fun _ => 0, fun _ => 0, fun _ => 0⟩
    ⟨0, 0, 1, 1⟩ 1 0 (by decide)).1

/-- Witness for C9: an untouched location keeps its old value. -/
theorem divide_shadow_frame_witness :
    (kernel_filter_divide_shadow 2 (fun _ k => (k : ℚ)) 0 0 (fun _ => 1) (fun _ => 1)
        (fun _ => 0) (fun _ => 1)
        ⟨fun _ => 0, fun _ => 0, fun _ => 0, fun _ => 0⟩ ⟨0, 0, 1, 1⟩ 1 0).sampleVariance 5
      = 0 :=
  (divide_shadow_frame 2 (fun _ k => (k : ℚ)) 0 0 (fun _ => 1) (fun _ => 1)
    (fun _ => 0) (fun _ => 1) ⟨fun _ => 0, fun _ => 0, fun _ => 0, fun _ => 0⟩
    ⟨0, 0, 1, 1⟩ 1 0 5 (by decide)).2.1

/-- Witness for C8 on concrete buffers. -/
theorem get_feature_spec_witness :
    (kernel_filter_get_feature 2 (fun _ k => (k : ℚ)) 0 1 0 0 (fun _ => 1) (fun _ => 1)
        (fun _ => 0) (fun _ => 1) (fun _ => 0) (fun _ => 0) ⟨0, 0, 1, 1⟩ 1 0).1
        (bufferIdx ⟨0, 0, 1, 1⟩ 0 0)
      = centerBuffer (fun _ k => (k : ℚ)) (fun _ => 1) (fun _ => 1) (fun _ => 0)
          (fun _ => 1) 1 0 0 0 0 / ((2 : ℤ) : ℚ) :=
  (get_feature_spec 2 (fun _ k => (k : ℚ)) 0 1 0 0 (fun _ => 1) (fun _ => 1)
    (fun _ => 0) (fun _ => 1) (fun _ => 0) (fun _ => 0) ⟨0, 0, 1, 1⟩ 1 0 (by decide)).1
